import Mathlib

/-!
Verification of the cland ingestion pipeline: a shallow embedding of the
exchange-file parser (pkg/exchange) and of the persistence layer
(internal/db) of the repository, with theorems settling the specification
claims about them.

Go strings are modelled as Lean `String`; the handful of Go standard-library
string helpers the code uses (`strings.HasPrefix`, `strings.SplitN` with
limit 2, `strings.TrimSpace`, `strings.Split`/`strings.Join` on "\n") are
re-implemented structurally on the character list so that every definition
is executable and kernel-reducible.  Go maps (`map[string]string`) are
modelled as association lists whose insert operation overwrites the entry
with the same key, matching the observable lookup behaviour of a Go map.
-/

deriving instance DecidableEq for Except

namespace Cland

/-- Go `strings.HasPrefix` on character lists: `listHasPfx p s` is true
when `p` is an initial segment of `s`. -/
def listHasPfx : List Char → List Char → Bool
  | [], _ => true
  | _ :: _, [] => false
  | a :: as, b :: bs => a == b && listHasPfx as bs

/-- Go `strings.HasPrefix pre s`. -/
def goHasPfx (pre s : String) : Bool :=
  listHasPfx pre.data s.data

/-- The ASCII white-space set of Go `unicode.IsSpace` (the inputs the
parser handles are ASCII text lines). -/
def goIsSpace (c : Char) : Bool :=
  c == ' ' || c == '\t' || c == '\n' || c == '\x0b' || c == '\x0c' || c == '\r'

/-- Go `strings.TrimSpace`: drop leading and trailing white space. -/
def goTrim (s : String) : String :=
  String.mk (((s.data.dropWhile goIsSpace).reverse.dropWhile goIsSpace).reverse)

/-- Split a character list at the first `':'`, returning the part before
and the part after it, or `none` when no colon occurs. -/
def splitFirstColon : List Char → Option (List Char × List Char)
  | [] => none
  | c :: rest =>
    if c == ':' then some ([], rest)
    else
      match splitFirstColon rest with
      | some (a, b) => some (c :: a, b)
      | none => none

/-- Go `strings.SplitN(line, ":", 2)`: the singleton `[line]` when the line
has no colon, otherwise the two parts around the first colon. -/
def splitN2 (s : String) : List String :=
  match splitFirstColon s.data with
  | some (a, b) => [String.mk a, String.mk b]
  | none => [s]

/-- Go `strings.Join(lines, "\n")`. -/
def joinLines : List String → String
  | [] => ""
  | [l] => l
  | l :: rest => l ++ "\n" ++ joinLines rest

namespace exchange

/-- The parsed notification record (`exchange.Notification`); the Go
`map[string]string` metadata field is modelled as an association list with
overwrite-on-insert semantics. -/
structure Notification where
  Topic : String
  Metadata : List (String × String)
  Message : String
  deriving Repr, DecidableEq

/-- The two structured parse errors (`NoTopicError`, `EmptyMessageError`). -/
inductive ParseError where
  | noTopic
  | emptyMessage
  deriving Repr, DecidableEq

/-- Go map assignment `m[k] = v`: overwrite the entry with key `k` in
place when present, otherwise append the new entry (an association list
keeps each key at most once, so this is the observable behaviour of a Go
map assignment). -/
def mapInsert : List (String × String) → String → String → List (String × String)
  | [], k, v => [(k, v)]
  | p :: rest, k, v => if p.1 = k then (k, v) :: rest else p :: mapInsert rest k v

/-- Go map lookup `m[k]`: the value of the first entry with key `k`. -/
def mapLookup : List (String × String) → String → Option String
  | [], _ => none
  | p :: rest, k => if p.1 = k then some p.2 else mapLookup rest k

/-- `isRule` from the source: a separator line is any line with prefix
`---`. -/
def isRule (line : String) : Bool :=
  goHasPfx "---" line

/-- `isComment` from the source: a comment line is any line with prefix
`--`. -/
def isComment (line : String) : Bool :=
  goHasPfx "--" line

/-- `parseMetadata`'s loop body from the source, iterated over the lines:
split each line on the first colon into two parts; skip the line when there
is no colon or either raw part is the empty string; otherwise assign the
trimmed value to the trimmed key in the map. -/
def parseMetadataAux (metadata : List (String × String)) : List String → List (String × String)
  | [] => metadata
  | line :: rest =>
    match splitN2 line with
    | [a, b] =>
      if a = "" ∨ b = "" then parseMetadataAux metadata rest
      else parseMetadataAux (mapInsert metadata (goTrim a) (goTrim b)) rest
    | _ => parseMetadataAux metadata rest

/-- `parseMetadata` from the source. -/
def parseMetadata (lines : List String) : List (String × String) :=
  parseMetadataAux [] lines

/-- The header/body splitting loop of `parse` from the source: a rule line
flips `insideHead` to false and is itself dropped; every other line goes to
the header while `insideHead` holds and to the body afterwards. -/
def splitHeadBody : List String → Bool → List String × List String
  | [], _ => ([], [])
  | line :: rest, insideHead =>
    if isRule line then splitHeadBody rest false
    else if insideHead then
      let p := splitHeadBody rest insideHead
      (line :: p.1, p.2)
    else
      let p := splitHeadBody rest insideHead
      (p.1, line :: p.2)

/-- `cleanHead` from the source: drop blank lines and comment lines from
the header. -/
def cleanHead (head : List String) : List String :=
  head.filter (fun line => !(line == "" || isComment line))

/-- `parse` from the source: split the lines into header and body, clean
the header; fail with `NoTopic` when no header line remains, with
`EmptyMessage` when the body is empty; otherwise the first header line is
the topic, the remaining header lines the metadata, the body lines joined
with newlines the message. -/
def parse (lines : List String) : Except ParseError Notification :=
  match cleanHead (splitHeadBody lines true).1, (splitHeadBody lines true).2 with
  | [], _ => Except.error ParseError.noTopic
  | _ :: _, [] => Except.error ParseError.emptyMessage
  | topic :: rest, msg =>
    Except.ok { Topic := topic, Metadata := parseMetadata rest, Message := joinLines msg }

/-- Spec-side description of the header: the lines before the first
separator line. -/
def headerPart (lines : List String) : List String :=
  lines.takeWhile (fun l => !isRule l)

/-- Spec-side description of the body as the code actually computes it:
the lines after the first separator line, with any further separator
lines removed. -/
def bodyPart (lines : List String) : List String :=
  ((lines.dropWhile (fun l => !isRule l)).drop 1).filter (fun l => !isRule l)

/-- Claim-side description of the body following the claim's words: the
lines at/after the first separator line. -/
def claimBodyAtAfter (lines : List String) : List String :=
  lines.dropWhile (fun l => !isRule l)

/-- Spec-side description of one metadata line, with the skip condition
the amended claim states: the line contributes an entry exactly when it
contains a colon and both raw sides of the first-colon split are
non-empty; the entry is the pair of the trimmed sides. -/
def lineEntry (line : String) : Option (String × String) :=
  match splitN2 line with
  | [a, b] => if a = "" ∨ b = "" then none else some (goTrim a, goTrim b)
  | _ => none

/-- Spec-side description of "the last occurrence wins": the value of the
last entry with key `k` in an entry list, if any. -/
def lastVal (k : String) : List (String × String) → Option String
  | [] => none
  | p :: rest =>
    match lastVal k rest with
    | some v => some v
    | none => if p.1 = k then some p.2 else none

end exchange

namespace db

/-- `MaxTopicNameLength` from the source. -/
def MaxTopicNameLength : Nat := 255

/-- The error values of the store layer.  The named validation errors
mirror the `Err...` values of the source; `execFailure` stands for a
runtime failure of an SQL statement (`ExecContext`/`Commit` returning a
non-nil error), which the Go code wraps and returns. -/
inductive DbError where
  | emptyDeviceID
  | emptyPublicKey
  | emptyTopic
  | topicTooLong
  | emptyMessage
  | execFailure
  deriving Repr, DecidableEq

/-- `NotificationStatus` from the source: INPUT, SENT, ERROR. -/
inductive NotificationStatus where
  | input
  | sent
  | error
  deriving Repr, DecidableEq

/-- One row of the `topics` relation (the `creation_date` column, set by
the database to the current time, carries no claim-relevant information
and is omitted). -/
structure TopicRow where
  topic_id : Int
  topic_name : String
  description : String
  deriving Repr, DecidableEq

/-- One row of the `notifications` relation (the `timestamp` column is
omitted like `creation_date`); the serialized JSON metadata blob is
modelled by the metadata mapping itself, since `json.Marshal` on a
`map[string]string` is injective on the mapping and never fails. -/
structure NotificationRow where
  notification_id : Int
  topic_id : Int
  message : String
  metadata : List (String × String)
  status : NotificationStatus
  deriving Repr, DecidableEq

/-- The store state: the `topics` and `notifications` relations plus the
AUTOINCREMENT counters that produce `LastInsertId`.  The `devices`
relation is carried along for completeness of the schema but no claim
touches it, so the device operations are not embedded. -/
structure DB where
  topics : List TopicRow
  notifications : List NotificationRow
  nextTopicId : Int
  nextNotifId : Int
  deriving Repr, DecidableEq

/-- `validateTopic` from the source.  Note that Go `len(topicName)` is the
number of UTF-8 bytes of the string, which `String.utf8ByteSize` computes. -/
def validateTopic (topicName : String) : Option DbError :=
  if topicName = "" then some DbError.emptyTopic
  else if topicName.utf8ByteSize > MaxTopicNameLength then some DbError.topicTooLong
  else none

/-- `validateNotification` from the source. -/
def validateNotification (notif : exchange.Notification) : Option DbError :=
  match validateTopic notif.Topic with
  | some e => some e
  | none => if notif.Message = "" then some DbError.emptyMessage else none

/-- `GetOrCreateTopic` from the source: validate the name; look the name
up and return the existing id with the state untouched when found;
otherwise insert a new row (name, description) and return its id.  The
whole operation runs in one transaction, so its state transition is a
single step.  Transient SQL failures roll the transaction back leaving the
state unchanged, so they are not modelled here. -/
def getOrCreateTopic (db : DB) (topicName description : String) : Except DbError Int × DB :=
  match validateTopic topicName with
  | some e => (Except.error e, db)
  | none =>
    match db.topics.find? (fun t => t.topic_name == topicName) with
    | some t => (Except.ok t.topic_id, db)
    | none =>
      let tid := db.nextTopicId
      (Except.ok tid,
        { db with
          topics := db.topics ++ [{ topic_id := tid, topic_name := topicName, description := description }],
          nextTopicId := tid + 1 })

/-- `InsertNotification` from the source: validate; resolve the topic via
`GetOrCreateTopic` — which the Go code calls on the store itself, so it
begins, and on success commits, its OWN transaction while the outer
transaction of `InsertNotification` is open — then execute the
notifications INSERT inside the outer transaction and commit.

`insertFails` is the success/failure of that INSERT statement
(`tx.ExecContext` returning a non-nil error at runtime).  When it fails
the Go function returns an error and the deferred rollback undoes the
outer transaction, but the topic row committed by the inner
`GetOrCreateTopic` transaction remains: the post-state keeps it. -/
def insertNotification (db : DB) (notif : exchange.Notification) (insertFails : Bool) :
    Except DbError Int × DB :=
  match validateNotification notif with
  | some e => (Except.error e, db)
  | none =>
    match getOrCreateTopic db notif.Topic "" with
    | (Except.error e, db1) => (Except.error e, db1)
    | (Except.ok tid, db1) =>
      if insertFails then (Except.error DbError.execFailure, db1)
      else
        let nid := db1.nextNotifId
        (Except.ok nid,
          { db1 with
            notifications := db1.notifications ++
              [{ notification_id := nid, topic_id := tid, message := notif.Message,
                 metadata := notif.Metadata, status := NotificationStatus.input }],
            nextNotifId := nid + 1 })

/-- The row transformer of the conditional UPDATE
`SET status = target WHERE notification_id = id AND status = 'INPUT'`. -/
def statusUpd (target : NotificationStatus) (id : Int) (r : NotificationRow) : NotificationRow :=
  if r.notification_id = id ∧ r.status = NotificationStatus.input then
    { r with status := target }
  else r

/-- `MarkNotificationSent` from the source: one UPDATE setting status to
SENT on the rows whose id matches and whose status is INPUT; affecting
zero rows returns nil without committing (the rolled-back empty update
leaves the state identical), so the operation never fails. -/
def markNotificationSent (db : DB) (id : Int) : Except DbError Unit × DB :=
  (Except.ok (),
    { db with notifications := db.notifications.map (statusUpd NotificationStatus.sent id) })

/-- `MarkNotificationError` from the source: the same conditional UPDATE
with target status ERROR. -/
def markNotificationError (db : DB) (id : Int) : Except DbError Unit × DB :=
  (Except.ok (),
    { db with notifications := db.notifications.map (statusUpd NotificationStatus.error id) })

/-- A topic name of 130 two-byte characters: 130 characters but 260 UTF-8
bytes, so Go `len` counts it over the 255 limit. -/
def longMultibyteName : String :=
  String.mk (List.replicate 130 'é')

end db

/-!
Theorems.  The development above is definitions only; everything below is
lemmas and the claim theorems.
-/

namespace exchange

lemma splitHeadBody_false_eq :
    ∀ ls : List String, splitHeadBody ls false = ([], ls.filter (fun l => !isRule l))
  | [] => rfl
  | l :: rest => by
    cases h : isRule l with
    | true => simp [splitHeadBody, h, splitHeadBody_false_eq rest, List.filter_cons]
    | false => simp [splitHeadBody, h, splitHeadBody_false_eq rest, List.filter_cons]

lemma splitHeadBody_eq :
    ∀ lines : List String, splitHeadBody lines true = (headerPart lines, bodyPart lines)
  | [] => rfl
  | l :: rest => by
    cases h : isRule l with
    | true =>
      simp [splitHeadBody, h, splitHeadBody_false_eq rest, headerPart, bodyPart,
        List.takeWhile_cons, List.dropWhile_cons]
    | false =>
      simp [splitHeadBody, h, splitHeadBody_eq rest, headerPart, bodyPart,
        List.takeWhile_cons, List.dropWhile_cons]

/-- The parser restated over the spec-side header/body split; every claim
about `parse` goes through this characterization. -/
lemma parse_char (lines : List String) :
    parse lines =
      match cleanHead (headerPart lines), bodyPart lines with
      | [], _ => Except.error ParseError.noTopic
      | _ :: _, [] => Except.error ParseError.emptyMessage
      | topic :: rest, msg =>
        Except.ok { Topic := topic, Metadata := parseMetadata rest, Message := joinLines msg } := by
  unfold parse
  rw [splitHeadBody_eq lines]

example : parse ["---", "body"] = Except.error ParseError.noTopic := by decide

example : parse ["topic", "key1: value1", "---", "message"] =
    Except.ok { Topic := "topic", Metadata := [("key1", "value1")], Message := "message" } := by
  decide

lemma headerPart_of_no_rule :
    ∀ lines : List String, (∀ l, l ∈ lines → isRule l = false) → headerPart lines = lines
  | [], _ => rfl
  | l :: rest, h => by
    have hl : isRule l = false := h l (by simp)
    have ih := headerPart_of_no_rule rest (fun x hx => h x (by simp [hx]))
    simp only [headerPart, List.takeWhile_cons, hl] at ih ⊢
    simp [ih]

lemma dropWhile_no_rule :
    ∀ lines : List String, (∀ l, l ∈ lines → isRule l = false) →
      lines.dropWhile (fun l => !isRule l) = []
  | [], _ => rfl
  | l :: rest, h => by
    have hl : isRule l = false := h l (by simp)
    have ih := dropWhile_no_rule rest (fun x hx => h x (by simp [hx]))
    simp [List.dropWhile_cons, hl, ih]

lemma bodyPart_of_no_rule (lines : List String) (h : ∀ l, l ∈ lines → isRule l = false) :
    bodyPart lines = [] := by
  simp [bodyPart, dropWhile_no_rule lines h]

lemma cleanHead_keep_iff (l : String) :
    (!(l == "" || isComment l)) = true ↔ ¬(l = "" ∨ isComment l = true) := by
  cases hc : isComment l <;> by_cases he : l = "" <;> simp [he, hc]

lemma cleanHead_eq_nil_iff (ls : List String) :
    cleanHead ls = [] ↔ ∀ l, l ∈ ls → (l = "" ∨ isComment l = true) := by
  rw [cleanHead, List.filter_eq_nil_iff]
  simp only [cleanHead_keep_iff, not_not]

lemma cleanHead_mem (ls : List String) (l : String) (h : l ∈ cleanHead ls) :
    l ∈ ls ∧ l ≠ "" ∧ isComment l = false := by
  rcases List.mem_filter.mp h with ⟨h1, h2⟩
  simp at h2
  exact ⟨h1, h2.1, h2.2⟩

lemma mapLookup_mapInsert_self :
    ∀ (m : List (String × String)) (k v : String), mapLookup (mapInsert m k v) k = some v
  | [], k, v => by simp [mapInsert, mapLookup]
  | p :: rest, k, v => by
    by_cases h : p.1 = k
    · simp [mapInsert, mapLookup, h]
    · simp [mapInsert, mapLookup, h, mapLookup_mapInsert_self rest k v]

lemma mapLookup_mapInsert_ne :
    ∀ (m : List (String × String)) (k v k' : String), k' ≠ k →
      mapLookup (mapInsert m k v) k' = mapLookup m k'
  | [], k, v, k', h => by
    simp only [mapInsert, mapLookup]
    rw [if_neg (fun hh => h hh.symm)]
  | p :: rest, k, v, k', h => by
    by_cases hp : p.1 = k
    · simp only [mapInsert, if_pos hp, mapLookup]
      rw [if_neg (fun hh => h hh.symm), if_neg (fun hh : p.1 = k' => h (hp ▸ hh).symm)]
    · simp only [mapInsert, if_neg hp, mapLookup]
      rw [mapLookup_mapInsert_ne rest k v k' h]

lemma parseMetadataAux_cons_skip (m : List (String × String)) (line : String)
    (rest : List String) (h : lineEntry line = none) :
    parseMetadataAux m (line :: rest) = parseMetadataAux m rest := by
  rw [parseMetadataAux]
  unfold lineEntry at h
  cases hs : splitN2 line with
  | nil => rfl
  | cons a tl =>
    cases tl with
    | nil => rfl
    | cons b tl2 =>
      cases tl2 with
      | nil =>
        rw [hs] at h
        have h2 : (if a = "" ∨ b = "" then (none : Option (String × String))
            else some (goTrim a, goTrim b)) = none := h
        show (if a = "" ∨ b = "" then parseMetadataAux m rest
            else parseMetadataAux (mapInsert m (goTrim a) (goTrim b)) rest) = parseMetadataAux m rest
        by_cases hab : a = "" ∨ b = ""
        · exact if_pos hab
        · rw [if_neg hab] at h2
          cases h2
      | cons c tl3 => rfl

lemma parseMetadataAux_cons_entry (m : List (String × String)) (line : String)
    (rest : List String) (e : String × String) (h : lineEntry line = some e) :
    parseMetadataAux m (line :: rest) = parseMetadataAux (mapInsert m e.1 e.2) rest := by
  rw [parseMetadataAux]
  unfold lineEntry at h
  cases hs : splitN2 line with
  | nil => rw [hs] at h; cases h
  | cons a tl =>
    cases tl with
    | nil => rw [hs] at h; cases h
    | cons b tl2 =>
      cases tl2 with
      | nil =>
        rw [hs] at h
        have h2 : (if a = "" ∨ b = "" then (none : Option (String × String))
            else some (goTrim a, goTrim b)) = some e := h
        show (if a = "" ∨ b = "" then parseMetadataAux m rest
            else parseMetadataAux (mapInsert m (goTrim a) (goTrim b)) rest) =
          parseMetadataAux (mapInsert m e.1 e.2) rest
        by_cases hab : a = "" ∨ b = ""
        · rw [if_pos hab] at h2; cases h2
        · rw [if_neg hab] at h2
          injection h2 with h3
          rw [if_neg hab, ← h3]
      | cons c tl3 => rw [hs] at h; cases h

lemma mapLookup_parseMetadataAux :
    ∀ (lines : List String) (m : List (String × String)) (k : String),
      mapLookup (parseMetadataAux m lines) k =
        match lastVal k (lines.filterMap lineEntry) with
        | some v => some v
        | none => mapLookup m k
  | [], _, _ => rfl
  | line :: rest, m, k => by
    cases he : lineEntry line with
    | none =>
      rw [parseMetadataAux_cons_skip m line rest he, List.filterMap_cons_none he]
      exact mapLookup_parseMetadataAux rest m k
    | some e =>
      rw [parseMetadataAux_cons_entry m line rest e he, List.filterMap_cons_some he]
      rw [mapLookup_parseMetadataAux rest (mapInsert m e.1 e.2) k]
      cases hlv : lastVal k (rest.filterMap lineEntry) with
      | some v => simp only [lastVal, hlv]
      | none =>
        by_cases hek : e.1 = k
        · simp only [lastVal, hlv, if_pos hek]
          rw [← hek, mapLookup_mapInsert_self]
        · simp only [lastVal, hlv, if_neg hek]
          exact mapLookup_mapInsert_ne m e.1 e.2 k (fun hh => hek hh.symm)

lemma parseMetadataAux_no_entries :
    ∀ (lines : List String) (m : List (String × String)),
      lines.filterMap lineEntry = [] → parseMetadataAux m lines = m
  | [], _, _ => rfl
  | line :: rest, m, h => by
    cases he : lineEntry line with
    | none =>
      rw [List.filterMap_cons_none he] at h
      rw [parseMetadataAux_cons_skip m line rest he]
      exact parseMetadataAux_no_entries rest m h
    | some e =>
      rw [List.filterMap_cons_some he] at h
      cases h

/-- C2 counterexample: the claim requires both sides to be non-empty
AFTER trimming for the line to contribute a pair, but the code checks the
raw sides before trimming: on the line `"key:  "` the right side trims to
the empty string, yet the parsed metadata does contain the key `"key"`
(with empty value) instead of skipping the line. -/
theorem parseMetadata_untrimmed_sides :
    splitN2 "key:  " = ["key", "  "] ∧
    goTrim "  " = "" ∧
    parseMetadata ["key:  "] = [("key", "")] ∧
    mapLookup (parseMetadata ["key:  "]) "key" = some "" :=
  ⟨by decide, by decide, by decide, by decide⟩

/-- C2 (amended): a header line contributes a key/value pair exactly when
it contains a colon and both raw sides of the first-colon split are
non-empty BEFORE trimming; the stored key and value are the trimmed sides
(so a stored key or value may be the empty string).  When several lines
store the same key the last occurrence's value is kept, and an input with
zero valid pairs yields the empty (not absent) mapping.  `lastVal` and
`lineEntry` express this spec-side; the theorem says every lookup in the
parsed metadata is the last contributed value for that key, and that the
mapping is empty when no line contributes. -/
theorem parseMetadata_lastWins_spec (lines : List String) :
    (∀ k, mapLookup (parseMetadata lines) k = lastVal k (lines.filterMap lineEntry)) ∧
    (lines.filterMap lineEntry = [] → parseMetadata lines = []) := by
  constructor
  · intro k
    unfold parseMetadata
    rw [mapLookup_parseMetadataAux lines [] k]
    cases lastVal k (lines.filterMap lineEntry) <;> rfl
  · intro h
    unfold parseMetadata
    exact parseMetadataAux_no_entries lines [] h

/-- C2 witness: on `["a: 1", "a: 2", "nocolon", ": x"]` the lookup of key
`"a"` is the last contributed value `"2"`. -/
theorem parseMetadata_lastWins_spec_check :
    mapLookup (parseMetadata ["a: 1", "a: 2", "nocolon", ": x"]) "a" =
      lastVal "a" ((["a: 1", "a: 2", "nocolon", ": x"] : List String).filterMap lineEntry) ∧
    lastVal "a" ((["a: 1", "a: 2", "nocolon", ": x"] : List String).filterMap lineEntry) = some "2" :=
  ⟨(parseMetadata_lastWins_spec ["a: 1", "a: 2", "nocolon", ": x"]).1 "a", by decide⟩

/-- C5 counterexample: the claim's body rule "the lines at/after the first
separator form the body" is false on the code.  At the claim's own example
the lines at/after the separator are `["---", "Server down"]`, whose join
is not the message `"Server down"` that `parse` returns; and even reading
"at/after" as "strictly after", the two-separator input
`["t", "---", "a", "----", "b"]` parses to message `"a\nb"` although the
lines strictly after the first separator are `["a", "----", "b"]`: the
parser drops every separator line from the body. -/
theorem parse_body_at_after_refuted :
    parse ["Updates", "Date: 2024-11-29", "---", "Server down"] =
      Except.ok { Topic := "Updates", Metadata := [("Date", "2024-11-29")], Message := "Server down" } ∧
    claimBodyAtAfter ["Updates", "Date: 2024-11-29", "---", "Server down"] = ["---", "Server down"] ∧
    joinLines ["---", "Server down"] ≠ "Server down" ∧
    parse ["t", "---", "a", "----", "b"] =
      Except.ok { Topic := "t", Metadata := [], Message := "a\nb" } ∧
    (claimBodyAtAfter ["t", "---", "a", "----", "b"]).drop 1 = ["a", "----", "b"] ∧
    joinLines ["a", "----", "b"] ≠ "a\nb" :=
  ⟨by decide, by decide, by decide, by decide, by decide, by decide⟩

/-- C5 (amended): a separator line is any line beginning with at least
three consecutive dashes (prefix match, not exact length); the lines
before the first separator form the header and the lines after it — with
every further separator line removed — form the body, and the example
input parses to topic "Updates", metadata Date ↦ 2024-11-29, message
"Server down". -/
theorem parse_split_spec (lines : List String) :
    splitHeadBody lines true = (headerPart lines, bodyPart lines) ∧
    (isRule "---" = true ∧ isRule "----" = true ∧ isRule "---x" = true ∧
     isRule "--" = false ∧ isRule "-- note" = false ∧ isRule "" = false) ∧
    parse ["Updates", "Date: 2024-11-29", "---", "Server down"] =
      Except.ok { Topic := "Updates", Metadata := [("Date", "2024-11-29")], Message := "Server down" } :=
  ⟨splitHeadBody_eq lines, by decide, by decide⟩

/-- C6: for every line sequence whose cleaned header is non-empty, parse
fails with EmptyMessage exactly when the body is empty; on success the
message is the body lines joined with newlines; and the input
`["topic", "---"]` fails with EmptyMessage. -/
theorem parse_emptyMessage_iff (lines : List String)
    (h : cleanHead (headerPart lines) ≠ []) :
    (parse lines = Except.error ParseError.emptyMessage ↔ bodyPart lines = []) ∧
    (∀ n, parse lines = Except.ok n → n.Message = joinLines (bodyPart lines)) ∧
    parse ["topic", "---"] = Except.error ParseError.emptyMessage := by
  have hp := parse_char lines
  cases hc : cleanHead (headerPart lines) with
  | nil => exact absurd hc h
  | cons t rest =>
    rw [hc] at hp
    cases hb : bodyPart lines with
    | nil =>
      rw [hb] at hp
      have hp2 : parse lines = Except.error ParseError.emptyMessage := hp
      refine ⟨⟨fun _ => rfl, fun _ => hp2⟩, fun n hn => ?_, by decide⟩
      rw [hp2] at hn
      cases hn
    | cons m ms =>
      rw [hb] at hp
      have hp2 : parse lines =
          Except.ok { Topic := t, Metadata := parseMetadata rest, Message := joinLines (m :: ms) } := hp
      refine ⟨⟨fun he => ?_, fun hbe => ?_⟩, fun n hn => ?_, by decide⟩
      · rw [hp2] at he; cases he
      · cases hbe
      · rw [hp2] at hn
        injection hn with hn2
        rw [← hn2]

/-- C6 witness at the input `["topic", "---"]`. -/
theorem parse_emptyMessage_iff_check :
    cleanHead (headerPart ["topic", "---"]) ≠ [] ∧
    (parse ["topic", "---"] = Except.error ParseError.emptyMessage ↔ bodyPart ["topic", "---"] = []) := by
  refine ⟨by decide, ?_⟩
  exact (parse_emptyMessage_iff ["topic", "---"] (by decide)).1

/-- C9: for every line sequence with no separator line, parse never
succeeds: every line is assigned to the header and the body stays empty,
so parse fails with NoTopic exactly when no non-blank, non-comment line
exists and with EmptyMessage otherwise. -/
theorem parse_no_separator_fails (lines : List String)
    (h : ∀ l, l ∈ lines → isRule l = false) :
    (∀ n, parse lines ≠ Except.ok n) ∧
    (parse lines = Except.error ParseError.noTopic ↔
      ∀ l, l ∈ lines → (l = "" ∨ isComment l = true)) ∧
    (parse lines = Except.error ParseError.emptyMessage ↔
      ∃ l, l ∈ lines ∧ l ≠ "" ∧ isComment l = false) := by
  have hh := headerPart_of_no_rule lines h
  have hb := bodyPart_of_no_rule lines h
  have hp := parse_char lines
  rw [hh, hb] at hp
  cases hc : cleanHead lines with
  | nil =>
    rw [hc] at hp
    have hp2 : parse lines = Except.error ParseError.noTopic := hp
    have hcl := (cleanHead_eq_nil_iff lines).mp hc
    refine ⟨fun n hn => ?_, ⟨fun _ => hcl, fun _ => hp2⟩, ⟨fun he => ?_, ?_⟩⟩
    · rw [hp2] at hn; cases hn
    · rw [hp2] at he; cases he
    · rintro ⟨l, hl, hne, hnc⟩
      rcases hcl l hl with h1 | h1
      · exact absurd h1 hne
      · rw [h1] at hnc; cases hnc
  | cons a as =>
    rw [hc] at hp
    have hp2 : parse lines = Except.error ParseError.emptyMessage := hp
    have hmem := cleanHead_mem lines a (by rw [hc]; exact List.mem_cons_self a as)
    refine ⟨fun n hn => ?_, ⟨fun he => ?_, fun hall => ?_⟩, ⟨fun _ => ⟨a, hmem⟩, fun _ => hp2⟩⟩
    · rw [hp2] at hn; cases hn
    · rw [hp2] at he; cases he
    · have := (cleanHead_eq_nil_iff lines).mpr hall
      rw [hc] at this
      cases this

/-- C9 witness at the separator-free inputs `["", "-- c"]` (NoTopic) and
`["x"]` (EmptyMessage). -/
theorem parse_no_separator_fails_check :
    (∀ l, l ∈ (["", "-- c"] : List String) → isRule l = false) ∧
    (parse ["", "-- c"] = Except.error ParseError.noTopic ↔
      ∀ l, l ∈ (["", "-- c"] : List String) → (l = "" ∨ isComment l = true)) ∧
    (∀ l, l ∈ (["x"] : List String) → isRule l = false) ∧
    (parse ["x"] = Except.error ParseError.emptyMessage ↔
      ∃ l, l ∈ (["x"] : List String) ∧ l ≠ "" ∧ isComment l = false) := by
  refine ⟨by decide, ?_, by decide, ?_⟩
  · exact (parse_no_separator_fails ["", "-- c"] (by decide)).2.1
  · exact (parse_no_separator_fails ["x"] (by decide)).2.2

/-- C10: when the cleaned header is empty and the body is empty too, parse
fails with NoTopic, not EmptyMessage: the missing-topic check takes
precedence over the empty-body check. -/
theorem parse_noTopic_precedence (lines : List String)
    (h1 : cleanHead (headerPart lines) = []) (h2 : bodyPart lines = []) :
    parse lines = Except.error ParseError.noTopic ∧
    parse lines ≠ Except.error ParseError.emptyMessage := by
  have hp := parse_char lines
  rw [h1, h2] at hp
  exact ⟨hp, by rw [hp]; decide⟩

/-- C10 witness at the single-line input `["---"]`. -/
theorem parse_noTopic_precedence_check :
    cleanHead (headerPart ["---"]) = [] ∧ bodyPart ["---"] = [] ∧
    (parse ["---"] = Except.error ParseError.noTopic ∧
     parse ["---"] ≠ Except.error ParseError.emptyMessage) := by
  refine ⟨by decide, by decide, ?_⟩
  exact parse_noTopic_precedence ["---"] (by decide) (by decide)

end exchange

namespace db

lemma map_id_of {α : Type} (f : α → α) :
    ∀ l : List α, (∀ a, a ∈ l → f a = a) → l.map f = l
  | [], _ => rfl
  | a :: rest, h => by
    rw [List.map_cons, h a (by simp), map_id_of f rest (fun x hx => h x (by simp [hx]))]

lemma map_idem {α : Type} (f : α → α) (hf : ∀ a, f (f a) = f a) :
    ∀ l : List α, (l.map f).map f = l.map f
  | [] => rfl
  | a :: rest => by
    rw [List.map_cons, List.map_cons, hf a, map_idem f hf rest]

lemma statusUpd_id (target : NotificationStatus) (id : Int) (r : NotificationRow)
    (h : ¬(r.notification_id = id ∧ r.status = NotificationStatus.input)) :
    statusUpd target id r = r :=
  if_neg h

lemma statusUpd_idem (target : NotificationStatus) (id : Int)
    (ht : target ≠ NotificationStatus.input) (r : NotificationRow) :
    statusUpd target id (statusUpd target id r) = statusUpd target id r := by
  by_cases h : r.notification_id = id ∧ r.status = NotificationStatus.input
  · unfold statusUpd
    rw [if_pos h]
    exact if_neg (fun hc => ht hc.2)
  · unfold statusUpd
    rw [if_neg h, if_neg h]

/-- C1: MarkSent and MarkError update the status only on rows currently
in INPUT: when every row with the given id is already terminal (or no row
has the id), both calls return no error and leave the whole store state
unchanged; both calls always return no error; re-applying either mark is
idempotent; and every row that is not an INPUT row with the given id
survives both calls unchanged (topics are never touched). -/
theorem markNotification_terminal_noop (db : DB) (id : Int) :
    ((∀ r, r ∈ db.notifications → r.notification_id = id → r.status ≠ NotificationStatus.input) →
        markNotificationSent db id = (Except.ok (), db) ∧
        markNotificationError db id = (Except.ok (), db)) ∧
    ((markNotificationSent db id).1 = Except.ok () ∧
     (markNotificationError db id).1 = Except.ok ()) ∧
    (markNotificationSent (markNotificationSent db id).2 id =
        (Except.ok (), (markNotificationSent db id).2) ∧
     markNotificationError (markNotificationError db id).2 id =
        (Except.ok (), (markNotificationError db id).2)) ∧
    (∀ r, r ∈ db.notifications → ¬(r.notification_id = id ∧ r.status = NotificationStatus.input) →
        r ∈ (markNotificationSent db id).2.notifications ∧
        r ∈ (markNotificationError db id).2.notifications) ∧
    ((markNotificationSent db id).2.topics = db.topics ∧
     (markNotificationError db id).2.topics = db.topics) := by
  refine ⟨?_, ⟨rfl, rfl⟩, ⟨?_, ?_⟩, ?_, ⟨rfl, rfl⟩⟩
  · intro h
    constructor
    · exact congrArg
        (fun x => ((Except.ok () : Except DbError Unit), { db with notifications := x }))
        (map_id_of _ db.notifications
          (fun r hr => statusUpd_id _ _ _ (fun hc => h r hr hc.1 hc.2)))
    · exact congrArg
        (fun x => ((Except.ok () : Except DbError Unit), { db with notifications := x }))
        (map_id_of _ db.notifications
          (fun r hr => statusUpd_id _ _ _ (fun hc => h r hr hc.1 hc.2)))
  · exact congrArg
      (fun x => ((Except.ok () : Except DbError Unit), { db with notifications := x }))
      (map_idem _ (statusUpd_idem NotificationStatus.sent id (by decide)) db.notifications)
  · exact congrArg
      (fun x => ((Except.ok () : Except DbError Unit), { db with notifications := x }))
      (map_idem _ (statusUpd_idem NotificationStatus.error id (by decide)) db.notifications)
  · intro r hr hc
    constructor
    · have hm := List.mem_map_of_mem (statusUpd NotificationStatus.sent id) hr
      rw [statusUpd_id _ _ _ hc] at hm
      exact hm
    · have hm := List.mem_map_of_mem (statusUpd NotificationStatus.error id) hr
      rw [statusUpd_id _ _ _ hc] at hm
      exact hm

/-- C1 witness: marking an already-SENT row again is a no-op and no
error. -/
theorem markNotification_terminal_noop_check :
    markNotificationSent ⟨[], [⟨1, 1, "m", [], NotificationStatus.sent⟩], 1, 2⟩ 1 =
      (Except.ok (), (⟨[], [⟨1, 1, "m", [], NotificationStatus.sent⟩], 1, 2⟩ : DB)) :=
  ((markNotification_terminal_noop
    ⟨[], [⟨1, 1, "m", [], NotificationStatus.sent⟩], 1, 2⟩ 1).1 (by decide)).1

/-- C7: for a valid topic name that already has a row (topic names are
unique by the schema constraint, hence the pairwise-uniqueness
hypothesis), GetOrCreateTopic returns the existing row's id and leaves
the whole store state — in particular the stored description — exactly
unchanged; for a valid name with no row it returns the fresh id and
appends exactly one new topic row carrying the given name and
description, leaving the notifications untouched. -/
theorem getOrCreateTopic_first_writer_wins (db : DB) (name desc : String)
    (hv : validateTopic name = none)
    (huniq : ∀ t1, t1 ∈ db.topics → ∀ t2, t2 ∈ db.topics → t1.topic_name = t2.topic_name → t1 = t2) :
    (∀ t, t ∈ db.topics → t.topic_name = name →
        getOrCreateTopic db name desc = (Except.ok t.topic_id, db)) ∧
    ((∀ t, t ∈ db.topics → t.topic_name ≠ name) →
        (getOrCreateTopic db name desc).1 = Except.ok db.nextTopicId ∧
        (getOrCreateTopic db name desc).2.topics =
          db.topics ++ [{ topic_id := db.nextTopicId, topic_name := name, description := desc }] ∧
        (getOrCreateTopic db name desc).2.notifications = db.notifications) := by
  constructor
  · intro t ht hname
    unfold getOrCreateTopic
    rw [hv]
    cases hf : db.topics.find? (fun t2 => t2.topic_name == name) with
    | none =>
      exfalso
      exact (List.find?_eq_none.mp hf t ht) (by simp [hname])
    | some t0 =>
      have h0mem := List.mem_of_find?_eq_some hf
      have h0name : t0.topic_name = name := by
        have := List.find?_some hf
        simpa using this
      rw [huniq t0 h0mem t ht (by rw [h0name, hname])]
  · intro hnone
    have hf : db.topics.find? (fun t2 => t2.topic_name == name) = none := by
      rw [List.find?_eq_none]
      intro t ht hbeq
      exact hnone t ht (by simpa using hbeq)
    unfold getOrCreateTopic
    rw [hv, hf]
    exact ⟨rfl, rfl, rfl⟩

/-- C7 witness: a second call with the same name "t" but a different
description "b" returns the stored id 1 and changes nothing. -/
theorem getOrCreateTopic_first_writer_wins_check :
    getOrCreateTopic ⟨[⟨1, "t", "a"⟩], [], 2, 1⟩ "t" "b" =
      (Except.ok 1, (⟨[⟨1, "t", "a"⟩], [], 2, 1⟩ : DB)) :=
  (getOrCreateTopic_first_writer_wins ⟨[⟨1, "t", "a"⟩], [], 2, 1⟩ "t" "b"
    (by decide) (by decide)).1 ⟨1, "t", "a"⟩ (by decide) rfl

set_option maxRecDepth 4000 in
/-- C3 counterexample: Go `len` counts UTF-8 bytes, not characters.  The
130-character name of two-byte characters is non-blank and well under 255
characters, yet validation rejects it with TopicTooLong because it is 260
bytes long. -/
theorem validateTopic_bytes_not_chars :
    longMultibyteName ≠ "" ∧
    longMultibyteName.length = 130 ∧
    longMultibyteName.utf8ByteSize = 260 ∧
    (getOrCreateTopic ⟨[], [], 1, 1⟩ longMultibyteName "").1 =
      Except.error DbError.topicTooLong :=
  ⟨by decide, by decide, by decide, by decide⟩

/-- C3 (amended): GetOrCreateTopic fails with EmptyTopic exactly when the
name is the empty string, and fails with TopicTooLong exactly when the
name is non-empty and over 255 UTF-8 bytes (Go `len`); non-empty names of
at most 255 bytes pass validation and never produce an error. -/
theorem getOrCreateTopic_validation (db : DB) (name desc : String) :
    ((getOrCreateTopic db name desc).1 = Except.error DbError.emptyTopic ↔ name = "") ∧
    ((getOrCreateTopic db name desc).1 = Except.error DbError.topicTooLong ↔
      (name ≠ "" ∧ name.utf8ByteSize > MaxTopicNameLength)) ∧
    (name ≠ "" → name.utf8ByteSize ≤ MaxTopicNameLength →
      ∀ e, (getOrCreateTopic db name desc).1 ≠ Except.error e) := by
  by_cases he : name = ""
  · have hg : getOrCreateTopic db name desc = (Except.error DbError.emptyTopic, db) := by
      unfold getOrCreateTopic validateTopic
      rw [if_pos he]
    have h1 : (getOrCreateTopic db name desc).1 = Except.error DbError.emptyTopic := by rw [hg]
    refine ⟨⟨fun _ => he, fun _ => h1⟩, ⟨fun hx => ?_, fun hx => absurd he hx.1⟩,
      fun hne => absurd he hne⟩
    rw [h1] at hx
    injection hx with hx2
    cases hx2
  · by_cases hl : name.utf8ByteSize > MaxTopicNameLength
    · have hg : getOrCreateTopic db name desc = (Except.error DbError.topicTooLong, db) := by
        unfold getOrCreateTopic validateTopic
        rw [if_neg he, if_pos hl]
      have h1 : (getOrCreateTopic db name desc).1 = Except.error DbError.topicTooLong := by rw [hg]
      refine ⟨⟨fun hx => ?_, fun hx => absurd hx he⟩, ⟨fun _ => ⟨he, hl⟩, fun _ => h1⟩,
        fun _ hle => absurd hl (by omega)⟩
      rw [h1] at hx
      injection hx with hx2
      cases hx2
    · have hval : validateTopic name = none := by
        unfold validateTopic
        rw [if_neg he, if_neg hl]
      have hok : ∃ i, (getOrCreateTopic db name desc).1 = Except.ok i := by
        unfold getOrCreateTopic
        rw [hval]
        cases hf : db.topics.find? (fun t2 => t2.topic_name == name) with
        | none => exact ⟨db.nextTopicId, rfl⟩
        | some t0 => exact ⟨t0.topic_id, rfl⟩
      rcases hok with ⟨i, hi⟩
      refine ⟨⟨fun hx => ?_, fun hx => absurd hx he⟩, ⟨fun hx => ?_, fun hx => absurd hx.2 hl⟩,
        fun _ _ e hx => ?_⟩
      · rw [hi] at hx; cases hx
      · rw [hi] at hx; cases hx
      · rw [hi] at hx; cases hx

/-- C3 amended-theorem witness: the one-byte name "topic" passes and
produces no error. -/
theorem getOrCreateTopic_validation_check :
    ("topic" : String) ≠ "" ∧ ("topic" : String).utf8ByteSize ≤ MaxTopicNameLength ∧
    (getOrCreateTopic ⟨[], [], 1, 1⟩ "topic" "").1 ≠ Except.error DbError.emptyTopic := by
  refine ⟨by decide, by decide, ?_⟩
  exact (getOrCreateTopic_validation ⟨[], [], 1, 1⟩ "topic" "").2.2 (by decide) (by decide)
    DbError.emptyTopic

/-- C4: evaluation of the code at the failing scenario.  On an empty
store, inserting a valid notification whose topic is new while the
notifications INSERT statement fails leaves the store changed: the error
is returned, the notification row is rolled back, but the topic row
created through the nested `GetOrCreateTopic` call — which committed its
own transaction — remains.  (With a succeeding INSERT the same call
returns the new id 1.) -/
theorem insertNotification_partial_commit :
    (insertNotification ⟨[], [], 1, 1⟩ ⟨"t", [], "m"⟩ true).1 =
      Except.error DbError.execFailure ∧
    (insertNotification ⟨[], [], 1, 1⟩ ⟨"t", [], "m"⟩ true).2 ≠ (⟨[], [], 1, 1⟩ : DB) ∧
    (insertNotification ⟨[], [], 1, 1⟩ ⟨"t", [], "m"⟩ true).2.topics =
      [⟨1, "t", ""⟩] ∧
    (insertNotification ⟨[], [], 1, 1⟩ ⟨"t", [], "m"⟩ true).2.notifications = [] ∧
    (insertNotification ⟨[], [], 1, 1⟩ ⟨"t", [], "m"⟩ false).1 = Except.ok 1 :=
  ⟨by decide, by decide, by decide, by decide, by decide⟩

end db

end Cland
